import Mathlib

/-!
Verification of the graph-rewrite engine in `mars/optimization/logical/core.py`
(plus the concrete rule module `arithmetic_query.py`).

Entities (tileable data objects) are modelled as opaque identities (`Nat`).
Entity attributes that the engine reads (`.key`, `.outputs`, `.inputs`, `.op`)
are supplied by an `Env` of attribute functions.  The host graph class
`EntityGraph` is not part of the source extract, so it is modelled from the
spec (see `Graph3` below).  Python dictionaries are modelled as association
lists with overwrite-on-insert, Python sets as lists up to membership.

A Python call that raises (or diverges) "does not return"; functions that can
fail this way return `Option`/a paired error so that the state at the moment
of the exception stays observable where the original mutates in place.
-/

/-- First-match lookup in an association list (Python `dict.__getitem__` /
`in` test; the insert below keeps keys unique). -/
def lookupKV {α β : Type} [DecidableEq α] : List (α × β) → α → Option β
  | [], _ => none
  | (k, v) :: rest, k' => if k = k' then some v else lookupKV rest k'

/-- Overwriting insert, modelling Python `dict[k] = v`. -/
def insertKV {α β : Type} [DecidableEq α] (m : List (α × β)) (k : α) (v : β) :
    List (α × β) :=
  (k, v) :: m.filter (fun p => p.1 ≠ k)

/-- `OptimizationRecordType` from `core.py` lines 28-31. -/
inductive OptimizationRecordType where
  | replace
  | new
  | delete
deriving DecidableEq, Repr

/-- `OptimizationRecord` from `core.py` lines 34-38.  The two entity fields
are `Optional` in the dataclass (they default to `None`). -/
structure OptimizationRecord where
  originalEntity : Option Nat := none
  newEntity : Option Nat := none
  recordType : OptimizationRecordType
deriving DecidableEq, Repr

/-- `OptimizationRecords` from `core.py` lines 41-48: the append-only log and
the two derived indices. -/
structure OptimizationRecords where
  records : List OptimizationRecord := []
  originalEntityToRecords : List (Option Nat × OptimizationRecord) := []
  optimizedEntityToRecords : List (Option Nat × OptimizationRecord) := []
deriving Repr

def emptyRecords : OptimizationRecords := {}

/-- `OptimizationRecords.append_record`, `core.py` lines 50-61. -/
def appendRecord (s : OptimizationRecords) (r : OptimizationRecord) :
    OptimizationRecords :=
  { records := s.records ++ [r]
    originalEntityToRecords :=
      if r.recordType = .replace ∨ r.recordType = .delete then
        insertKV s.originalEntityToRecords r.originalEntity r
      else s.originalEntityToRecords
    optimizedEntityToRecords :=
      if r.recordType = .new ∨ r.recordType = .replace then
        insertKV s.optimizedEntityToRecords r.newEntity r
      else s.optimizedEntityToRecords }

/-- A store obtained by appending a list of records to the empty store. -/
def buildRecords (rs : List OptimizationRecord) : OptimizationRecords :=
  rs.foldl appendRecord emptyRecords

/-- The `while` loop of `get_optimization_result` (`core.py` lines 69-76),
with explicit fuel: `none` means the call does not return normally (the
loop diverges on a cyclic chain, or the `assert` on line 74 fires).
`some none` is Python `return None` (the deleted outcome), `some (some e)`
is `return e` after the loop. -/
def resolveForwardAux (m : List (Option Nat × OptimizationRecord)) :
    Nat → Option Nat → Option (Option Nat)
  | 0, _ => none
  | fuel + 1, entity =>
    match lookupKV m entity with
    | none => some entity
    | some record =>
      match record.recordType with
      | .replace => resolveForwardAux m fuel record.newEntity
      | .delete => some none
      | .new => none

/-- `OptimizationRecords.get_optimization_result`, `core.py` lines 63-76
(forward resolution).  Outer `none` = the call does not return normally;
`some v` = the call returns the Python value `v` (`none` being `None`). -/
def getOptimizationResult (s : OptimizationRecords) (fuel : Nat)
    (originalEntity : Nat) (default : Option Nat) : Option (Option Nat) :=
  if (lookupKV s.originalEntityToRecords (some originalEntity)).isSome then
    resolveForwardAux s.originalEntityToRecords fuel (some originalEntity)
  else
    some default

/-- The `while` loop of `get_original_entity` (`core.py` lines 84-91),
symmetric to `resolveForwardAux`: a `new` record returns `None`
("no original"), the `assert` on line 89 would fire on a `delete` record. -/
def resolveBackwardAux (m : List (Option Nat × OptimizationRecord)) :
    Nat → Option Nat → Option (Option Nat)
  | 0, _ => none
  | fuel + 1, entity =>
    match lookupKV m entity with
    | none => some entity
    | some record =>
      match record.recordType with
      | .replace => resolveBackwardAux m fuel record.originalEntity
      | .new => some none
      | .delete => none

/-- `OptimizationRecords.get_original_entity`, `core.py` lines 78-91
(backward resolution). -/
def getOriginalEntity (s : OptimizationRecords) (fuel : Nat)
    (optimizedEntity : Nat) (default : Option Nat) : Option (Option Nat) :=
  if (lookupKV s.optimizedEntityToRecords (some optimizedEntity)).isSome then
    resolveBackwardAux s.optimizedEntityToRecords fuel (some optimizedEntity)
  else
    some default

/-- Modelled from the spec: the Graph collaborator (`EntityGraph`, not part
of the source extract).  Per spec sections 3 and 6 it owns the node set,
directed edges, and "a mutable ordered results list"; it exposes add/remove
node, predecessor/successor queries and membership.  Removing a node removes
its incident edges; the spec does not make `remove_node` touch `results`. -/
structure Graph3 where
  nodes : List Nat := []
  edges : List (Nat × Nat) := []
  results : List Nat := []
deriving DecidableEq, Repr

def Graph3.successors (g : Graph3) (n : Nat) : List Nat :=
  (g.edges.filter (fun e => e.1 = n)).map (fun e => e.2)

def Graph3.predecessors (g : Graph3) (n : Nat) : List Nat :=
  (g.edges.filter (fun e => e.2 = n)).map (fun e => e.1)

def Graph3.removeNode (g : Graph3) (n : Nat) : Graph3 :=
  { nodes := g.nodes.filter (fun x => x ≠ n)
    edges := g.edges.filter (fun e => e.1 ≠ n ∧ e.2 ≠ n)
    results := g.results }

def Graph3.addNode (g : Graph3) (n : Nat) : Graph3 :=
  if n ∈ g.nodes then g else { g with nodes := g.nodes ++ [n] }

def Graph3.addEdge (g : Graph3) (a b : Nat) : Graph3 :=
  if (a, b) ∈ g.edges then g else { g with edges := g.edges ++ [(a, b)] }

/-- Attributes the engine reads off an entity: its own key (`x.key`), its
output entities (`node.outputs`), its input entities (`node.inputs`) and its
operand (`entity.op`).  `inputsOf` is the one mutable attribute
(`succ.inputs = new_inputs` in `_replace_inputs`). -/
structure Env where
  keyOf : Nat → Nat
  outputsOf : Nat → List Nat
  inputsOf : Nat → List Nat
  opOf : Nat → Nat

/-- The exceptions `_replace_subgraph` can raise: the three documented
`ValueError`s (`core.py` lines 178, 190, 201) and the undocumented
`KeyError` from `output_to_node[inp.key]` on line 216. -/
inductive RErr where
  | nodeInRemoved (n : Nat)
  | unknownResult (r : Nat)
  | missingInput (succ : Nat)
  | keyError (k : Nat)
deriving DecidableEq, Repr

/-- The three `ValueError`s are the StructuralViolation taxonomy of the
spec; the reconnection `KeyError` is not one of them. -/
def RErr.isStructural : RErr → Bool
  | .keyError _ => false
  | _ => true

/-- `output_to_node[output.key] = node` for every output of `n`
(`core.py` lines 179-180 and 185-186). -/
def addOutputs (env : Env) (m : List (Nat × Nat)) (n : Nat) : List (Nat × Nat) :=
  (env.outputsOf n).foldl (fun m o => insertKV m (env.keyOf o) n) m

/-- The merged "output key -> producing node" index of `_replace_subgraph`
(`core.py` lines 174-186): first the replacement graph's nodes, then the
surviving original-graph nodes (so an original producer wins on a shared
key, dict writes overwriting). -/
def mergedIndex (env : Env) (g : Graph3) (sgNodes : List Nat)
    (nodesToRemove : List Nat) : List (Nat × Nat) :=
  let m1 := sgNodes.foldl (addOutputs env) []
  (g.nodes.filter (fun n => ¬ n ∈ nodesToRemove)).foldl (addOutputs env) m1

/-- Affected successors (`core.py` lines 193-196): successors of removed
nodes that are not themselves removed. -/
def affectedSuccessors (g : Graph3) (nodesToRemove : List Nat) : List Nat :=
  ((nodesToRemove.foldl (fun acc n => acc ++ g.successors n) []).filter
    (fun s => ¬ s ∈ nodesToRemove)).dedup

/-- One node's leg of the reconnection loop (`core.py` lines 214-217):
`pred_node = output_to_node[inp.key]` can raise `KeyError`; edges added so
far stay in the graph. -/
def addInputEdges (env : Env) (otn : List (Nat × Nat)) (n : Nat) :
    Graph3 → List Nat → Graph3 × Option RErr
  | g, [] => (g, none)
  | g, i :: is =>
    match lookupKV otn (env.keyOf i) with
    | none => (g, some (.keyError (env.keyOf i)))
    | some pred => addInputEdges env otn n (g.addEdge pred n) is

/-- The reconnection loop over `chain(graph.iter_nodes(), affected_successors)`
(`core.py` lines 214-217). -/
def addEdgesAll (env : Env) (otn : List (Nat × Nat)) :
    Graph3 → List Nat → Graph3 × Option RErr
  | g, [] => (g, none)
  | g, n :: rest =>
    match addInputEdges env otn n g (env.inputsOf n) with
    | (g', some e) => (g', some e)
    | (g', none) => addEdgesAll env otn g' rest

/-- `OptimizationRule._replace_subgraph`, `core.py` lines 134-219.
`sg = some ns` is a replacement graph with node list `ns`; `sg = none` is
Python `graph=None`.  Returns the graph state at exit together with the
raised exception, if any.  (The original interleaves the
node-in-removed-set check with building the index; since that check fires
before any mutation, checking it first is observably identical.) -/
def replaceSubgraph (env : Env) (g : Graph3) (sg : Option (List Nat))
    (nodesToRemove newResults resultsToRemove : List Nat) :
    Graph3 × Option RErr :=
  let sgNodes := sg.getD []
  let finalResults :=
    ((g.results.filter (fun x => ¬ x ∈ resultsToRemove)) ++ newResults).dedup
  match sgNodes.find? (fun n => decide (n ∈ nodesToRemove)) with
  | some n => (g, some (.nodeInRemoved n))
  | none =>
    let otn := mergedIndex env g sgNodes nodesToRemove
    match newResults.find? (fun r => (lookupKV otn (env.keyOf r)).isNone) with
    | some r => (g, some (.unknownResult r))
    | none =>
      let aff := affectedSuccessors g nodesToRemove
      match aff.find? (fun s =>
          (env.inputsOf s).any (fun i => (lookupKV otn (env.keyOf i)).isNone)) with
      | some s => (g, some (.missingInput s))
      | none =>
        let g1 := nodesToRemove.foldl Graph3.removeNode g
        match sg with
        | none => (g1, none)
        | some ns =>
          let g2 := ns.foldl Graph3.addNode g1
          match addEdgesAll env otn g2 (ns ++ aff) with
          | (g3, some e) => (g3, some e)
          | (g3, none) => ({ g3 with results := finalResults }, none)

/-- One input of `_replace_inputs` (`core.py` lines 332-334):
`optimized = records.get_optimization_result(inp)` followed by
`if optimized is None: optimized = inp`.  `none` = resolution did not
return (model artifact for a diverging chain). -/
def resolveInputStep (s : OptimizationRecords) (fuel : Nat) (inp : Nat) :
    Option Nat :=
  match getOptimizationResult s fuel inp none with
  | none => none
  | some v => some (v.getD inp)

/-- `succ.inputs = new_inputs`.  (The original assigns only when some input
changed; assigning an equal list is observably identical.) -/
def Env.setInputs (env : Env) (e : Nat) (l : List Nat) : Env :=
  { env with inputsOf := fun x => if x = e then l else env.inputsOf x }

/-- The body of `_replace_inputs` for one successor (`core.py` lines 329-339). -/
def rewriteSucc (s : OptimizationRecords) (fuel : Nat) (env : Env)
    (succ : Nat) : Option Env :=
  match (env.inputsOf succ).mapM (resolveInputStep s fuel) with
  | none => none
  | some newInputs => some (env.setInputs succ newInputs)

/-- `Optimizer._replace_inputs`, `core.py` lines 325-339: for every node of
the graph, rewrite each of its successors' inputs.  Note there is no raise
anywhere in this method. -/
def replaceInputs (s : OptimizationRecords) (fuel : Nat) (g : Graph3)
    (env : Env) : Option Env :=
  g.nodes.foldlM
    (fun env n => (g.successors n).foldlM (rewriteSucc s fuel) env) env

/-- The `graph.results` recomputation in `optimize` (`core.py` lines
366-371): each result resolved through the store with itself as the default.
A deleted result yields the entry `none` (Python `None` lands in the list). -/
def recomputeResults (s : OptimizationRecords) (fuel : Nat)
    (results : List Nat) : Option (List (Option Nat)) :=
  results.mapM (fun r => getOptimizationResult s fuel r (some r))

/-- Python `x in graph.results` where `x` is an entity-or-None. -/
def optMemB (o : Option Nat) (l : List Nat) : Bool :=
  match o with
  | some x => decide (x ∈ l)
  | none => false

/-- `OptimizationRule._add_collapsable_predecessor`, `core.py` lines 221-226.
Note the guard tests membership of `predecessor` while both writes key the
map by `pred_original`.  The `else` branch raises `KeyError` when
`pred_original` has no entry (modelled as `none`). -/
def addCollapsablePredecessor (s : OptimizationRecords) (fuel : Nat)
    (predsToRemove : List (Option Nat × List Nat)) (node predecessor : Nat) :
    Option (List (Option Nat × List Nat)) :=
  match getOriginalEntity s fuel predecessor (some predecessor) with
  | none => none
  | some predOriginal =>
    if (lookupKV predsToRemove (some predecessor)).isNone then
      some (insertKV predsToRemove predOriginal [node])
    else
      match lookupKV predsToRemove predOriginal with
      | none => none
      | some st =>
        some (insertKV predsToRemove predOriginal
          (if node ∈ st then st else st ++ [node]))

/-- The collection loop of `_remove_collapsable_predecessors` (`core.py`
lines 230-242), over the predecessor list of the (resolved) node.  Returns
the `preds_opt_to_remove` pairs in iteration order. -/
def collectPreds (s : OptimizationRecords) (fuel : Nat)
    (predsToRemove : List (Option Nat × List Nat)) (g : Graph3) :
    List Nat → Option (List (Option Nat × Option Nat))
  | [] => some []
  | pred :: rest =>
    match getOriginalEntity s fuel pred (some pred) with
    | none => none
    | some predOriginal =>
      match getOptimizationResult s fuel pred (some pred) with
      | none => none
      | some predOpt =>
        if optMemB predOpt g.results || optMemB predOriginal g.results then
          collectPreds s fuel predsToRemove g rest
        else
          match ((lookupKV predsToRemove predOriginal).getD []).mapM
              (fun a => getOptimizationResult s fuel a (some a)) with
          | none => none
          | some affectSuccOpt =>
            if (g.successors pred).all
                (fun s2 => decide (some s2 ∈ affectSuccOpt)) then
              match collectPreds s fuel predsToRemove g rest with
              | none => none
              | some l => some ((predOriginal, predOpt) :: l)
            else
              collectPreds s fuel predsToRemove g rest

/-- One step of the removal loop (`core.py` lines 244-248): remove
`pred_opt` from the graph and append a Delete record for `pred_original`;
`remove_node(None)` raises. -/
def removeCollectedStep (st : Graph3 × OptimizationRecords)
    (pr : Option Nat × Option Nat) : Option (Graph3 × OptimizationRecords) :=
  match pr.2 with
  | none => none
  | some p => some (st.1.removeNode p, appendRecord st.2 ⟨pr.1, none, .delete⟩)

/-- `OptimizationRule._remove_collapsable_predecessors`, `core.py` lines
228-248: collect the removable predecessors (guarding on
`graph.results`), then remove each collected `pred_opt` and append a
Delete record for its original. -/
def removeCollapsablePredecessors (s : OptimizationRecords) (fuel : Nat)
    (predsToRemove : List (Option Nat × List Nat)) (g : Graph3)
    (node : Nat) : Option (Graph3 × OptimizationRecords) :=
  match getOptimizationResult s fuel node none with
  | none => none
  | some nodeRes =>
    let node := nodeRes.getD node
    match collectPreds s fuel predsToRemove g (g.predecessors node) with
    | none => none
    | some collected =>
      collected.foldlM removeCollectedStep
        ((g, s) : Graph3 × OptimizationRecords)

/-- Result of the operand-dispatch loop.  `state` is the abstract mutable
world (graph, records, caches) that `match_operand`, the membership test and
`apply_to_operand` see.  `consideredOps` and `matchedOps` are ghost
instrumentation, absent from the source: the operands newly added to
`visited`, resp. the operands for which `match_operand` returned true and
`apply_to_operand` ran. -/
structure ObApplyResult (S : Type) where
  optimized : Bool
  state : S
  consideredOps : List Nat
  matchedOps : List Nat

/-- The loop of `OperandBasedOptimizationRule.apply`, `core.py` lines
262-277: skip an operand already visited, mark visited, skip entities no
longer in the graph, then on an interest-set + `match_operand` hit set
`optimized` and run `apply_to_operand`. -/
def obApplyAux {S : Type} (opOf : Nat → Nat) (isInst : Nat → Bool)
    (matchOp : S → Nat → Bool) (memB : S → Nat → Bool)
    (transform : S → Nat → S) :
    List Nat → List Nat → Bool → S → ObApplyResult S
  | [], _, opt, σ => ⟨opt, σ, [], []⟩
  | e :: rest, visited, opt, σ =>
    let op := opOf e
    if op ∈ visited then
      obApplyAux opOf isInst matchOp memB transform rest visited opt σ
    else
      let visited' := op :: visited
      if memB σ e then
        if isInst op && matchOp σ op then
          let r := obApplyAux opOf isInst matchOp memB transform rest visited'
            true (transform σ op)
          ⟨r.optimized, r.state, op :: r.consideredOps, op :: r.matchedOps⟩
        else
          let r := obApplyAux opOf isInst matchOp memB transform rest visited'
            opt σ
          ⟨r.optimized, r.state, op :: r.consideredOps, r.matchedOps⟩
      else
        let r := obApplyAux opOf isInst matchOp memB transform rest visited'
          opt σ
        ⟨r.optimized, r.state, op :: r.consideredOps, r.matchedOps⟩

/-- `OperandBasedOptimizationRule.apply`, `core.py` lines 260-278.
`entities` is the snapshot `list(self._graph.topological_iter())`. -/
def obApply {S : Type} (opOf : Nat → Nat) (isInst : Nat → Bool)
    (matchOp : S → Nat → Bool) (memB : S → Nat → Bool)
    (transform : S → Nat → S) (entities : List Nat) (σ : S) :
    ObApplyResult S :=
  obApplyAux opOf isInst matchOp memB transform entities [] false σ

/-- `SeriesArithmeticToEval._next_var_id` (`arithmetic_query.py` lines
145-150): `_var_counter` is a class attribute, incremented in place, so its
value survives across rule instances and across `optimize()` calls. -/
def nextVarId (varCounter : Nat) : Nat × Nat :=
  (varCounter + 1, varCounter + 1)

/-- The non-primitive-scalar branch of `_extract_eval_expression`
(`arithmetic_query.py` lines 188-191): the returned expression embeds a
variable name minted from the class-level counter. -/
def extractScalarExpr (varCounter : Nat) : String × Nat :=
  let p := nextVarId varCounter
  ("@__eval_scalar_var" ++ toString p.1, p.2)

/-- The forward chain of `e` hits a Delete record after zero or more
Replace hops (the hypothesis shape of the delete-dominance property). -/
inductive ReachesDelete (m : List (Option Nat × OptimizationRecord)) :
    Option Nat → Prop
  | del (e : Option Nat) (r : OptimizationRecord) :
      lookupKV m e = some r → r.recordType = .delete → ReachesDelete m e
  | step (e : Option Nat) (r : OptimizationRecord) :
      lookupKV m e = some r → r.recordType = .replace →
      ReachesDelete m r.newEntity → ReachesDelete m e

/-- Model-artifact side condition: with this fuel, forward resolution of
every entity returns (no cyclic chain, no mid-chain `new` record). -/
def ResolveTotal (s : OptimizationRecords) (fuel : Nat) : Prop :=
  ∀ inp, (resolveInputStep s fuel inp).isSome

/-- Resolved values are stable: resolving the result of a resolution
returns it unchanged (holds whenever no replacement target is itself
recorded as an original). -/
def ResolveStable (s : OptimizationRecords) (fuel : Nat) : Prop :=
  ∀ inp e, resolveInputStep s fuel inp = some e →
    resolveInputStep s fuel e = some e

/-- Test fixture: entity n's only output is itself, keys are identities,
entity 1 consumes entity 0's output. -/
def envA : Env :=
  ⟨fun n => n, fun n => [n], fun n => if n = 1 then [0] else [], fun n => n⟩

/-- Test fixture: entity 2 consumes entity 1. -/
def envB : Env :=
  ⟨fun n => n, fun n => [n], fun n => if n = 2 then [1] else [], fun n => n⟩

/-- Test fixture: a store where entity 1 is deleted. -/
def sDel1 : OptimizationRecords := buildRecords [⟨some 1, none, .delete⟩]

/-- Test fixture: Replace 0 -> 1 followed by Delete 1. -/
def s4w : OptimizationRecords :=
  buildRecords [⟨some 0, some 1, .replace⟩, ⟨some 1, none, .delete⟩]

/-- The value `_replace_inputs` ends up storing for one input when
resolution returns: the resolved entity, or the original input when
resolution yielded `None` (no record, or deleted). -/
def resolveOrSelf (s : OptimizationRecords) (fuel : Nat) (inp : Nat) : Nat :=
  (resolveInputStep s fuel inp).getD inp

/-- Test fixture: graph 1 -> 2 with result 2. -/
def g3fix : Graph3 := ⟨[1, 2], [(1, 2)], [2]⟩

/-- Test fixture: graph 1 -> 2 plus isolated node 3, result 3. -/
def g7fix : Graph3 := ⟨[1, 2, 3], [(1, 2)], [3]⟩

/-- Test fixture: the record store after the C7 witness run (one Delete
record for entity 1). -/
def rec7fix : OptimizationRecords :=
  ⟨[⟨some 1, none, .delete⟩], [(some 1, ⟨some 1, none, .delete⟩)], []⟩

/-- C4: the claim quantifies over every default `d`, but Python's deleted
sentinel is `None`, which is exactly the default value of the `default`
parameter: at `d = None` the deleted outcome is not distinct from the
fallback.  Concretely, with entity 0 deleted, `get_optimization_result(0)`
returns `None`, equal to the default it was called with. -/
theorem c4_deleted_sentinel_equals_default_none :
    ¬ (ReachesDelete (buildRecords [⟨some 0, none, .delete⟩]).originalEntityToRecords
          (some 0) →
        getOptimizationResult (buildRecords [⟨some 0, none, .delete⟩]) 1 0 none =
            some none ∧
          (none : Option Nat) ≠ none) := by
  intro h
  exact (h (ReachesDelete.del (some 0) ⟨some 0, none, .delete⟩ rfl rfl)).2 rfl

/-- A chain that reaches a Delete record resolves forward to `None` with
enough fuel. -/
theorem reachesDelete_resolveForwardAux
    (m : List (Option Nat × OptimizationRecord)) (e : Option Nat)
    (h : ReachesDelete m e) :
    ∃ fuel, resolveForwardAux m fuel e = some none := by
  induction h with
  | del e r hl ht => exact ⟨1, by simp [resolveForwardAux, hl, ht]⟩
  | step e r hl ht _ ih =>
    obtain ⟨f, hf⟩ := ih
    exact ⟨f + 1, by simp [resolveForwardAux, hl, ht, hf]⟩

theorem reachesDelete_lookup (m : List (Option Nat × OptimizationRecord))
    (e : Option Nat) (h : ReachesDelete m e) : (lookupKV m e).isSome := by
  cases h with
  | del e r hl ht => rw [hl]; rfl
  | step e r hl ht hrest => rw [hl]; rfl

/-- C4 (amended): if A's forward chain contains a Delete record at any hop,
`get_optimization_result(A, d)` returns the deleted outcome `None`; that
outcome is distinct from the fallback `d` whenever `d` is itself not
`None` (for `d = None` — the parameter's own default — sentinel and
fallback coincide). -/
theorem c4_delete_dominance (s : OptimizationRecords) (A : Nat)
    (d : Option Nat) (h : ReachesDelete s.originalEntityToRecords (some A)) :
    ∃ fuel, getOptimizationResult s fuel A d = some none ∧
      (d ≠ none → (none : Option Nat) ≠ d) := by
  obtain ⟨f, hf⟩ := reachesDelete_resolveForwardAux _ _ h
  have hl := reachesDelete_lookup _ _ h
  exact ⟨f, by simp [getOptimizationResult, hl, hf], fun hd hc => hd hc.symm⟩

theorem c4_delete_dominance_witness :
    ∃ fuel, getOptimizationResult s4w fuel 0 (some 5) = some none ∧
      ((some 5 : Option Nat) ≠ none → (none : Option Nat) ≠ some 5) :=
  c4_delete_dominance s4w 0 (some 5)
    (ReachesDelete.step (some 0) ⟨some 0, some 1, .replace⟩ rfl rfl
      (ReachesDelete.del (some 1) ⟨some 1, none, .delete⟩ rfl rfl))

/-- C6: A replaced by B, B later replaced by C (distinct entities, no other
records): forward resolution of A gives C and backward resolution of C
gives A. -/
theorem c6_replace_transitivity (A B C : Nat) (hAB : A ≠ B) (hAC : A ≠ C)
    (hBC : B ≠ C) :
    getOptimizationResult
        (buildRecords [⟨some A, some B, .replace⟩, ⟨some B, some C, .replace⟩])
        3 A none = some (some C) ∧
      getOriginalEntity
        (buildRecords [⟨some A, some B, .replace⟩, ⟨some B, some C, .replace⟩])
        3 C none = some (some A) := by
  constructor <;>
    simp [buildRecords, appendRecord, emptyRecords, insertKV,
      getOptimizationResult, getOriginalEntity, resolveForwardAux,
      resolveBackwardAux, lookupKV, hAB, hAC, hBC, Ne.symm hAB, Ne.symm hAC,
      Ne.symm hBC]

theorem c6_replace_transitivity_witness :
    getOptimizationResult
        (buildRecords [⟨some 0, some 1, .replace⟩, ⟨some 1, some 2, .replace⟩])
        3 0 none = some (some 2) ∧
      getOriginalEntity
        (buildRecords [⟨some 0, some 1, .replace⟩, ⟨some 1, some 2, .replace⟩])
        3 2 none = some (some 0) :=
  c6_replace_transitivity 0 1 2 (by decide) (by decide) (by decide)

/-- C8: the eval-variable counter is a class attribute; a fresh run and a
run preceded by one earlier extraction mint different variable names, so
the second `optimize()` outcome depends on earlier calls. -/
theorem c8_prior_call_changes_outcome :
    (extractScalarExpr 0).1 ≠ (extractScalarExpr (extractScalarExpr 0).2).1 := by
  decide

/-- C8 (amended): the rule-instance cache is per-call, but the class-level
variable counter survives `optimize()` calls: whenever a prior call has
advanced it, the next extraction returns a different record. -/
theorem c8_extraction_depends_on_surviving_counter (c : Nat) :
    extractScalarExpr c ≠ extractScalarExpr (c + 1) := by
  intro h
  have h2 := congrArg Prod.snd h
  simp [extractScalarExpr, nextVarId] at h2

/-- C9: with a Replace record 0 -> 1, `_add_collapsable_predecessor` tests
membership of the predecessor (1) but keys the map by its original (0), so
a second call overwrites the accounted set {5} with {6} instead of growing
it. -/
theorem c9_accounting_overwritten :
    addCollapsablePredecessor (buildRecords [⟨some 0, some 1, .replace⟩]) 2
        [] 5 1 = some [(some 0, [5])] ∧
      addCollapsablePredecessor (buildRecords [⟨some 0, some 1, .replace⟩]) 2
        [(some 0, [5])] 6 1 = some [(some 0, [6])] :=
  ⟨rfl, rfl⟩

/-- Any error escaping the reconnection inner loop is a `KeyError`, never
one of the three validation errors. -/
theorem addInputEdges_err_not_structural (env : Env) (otn : List (Nat × Nat))
    (n : Nat) :
    ∀ (is : List Nat) (g g' : Graph3) (e : RErr),
      addInputEdges env otn n g is = (g', some e) → e.isStructural = false := by
  intro is
  induction is with
  | nil => intro g g' e h; simp [addInputEdges] at h
  | cons i is ih =>
    intro g g' e h
    rw [addInputEdges] at h
    split at h
    · rw [Prod.mk.injEq] at h
      obtain ⟨-, h2⟩ := h
      obtain rfl := Option.some.inj h2
      rfl
    · exact ih _ _ _ h

/-- Any error escaping the whole reconnection loop is a `KeyError`. -/
theorem addEdgesAll_err_not_structural (env : Env) (otn : List (Nat × Nat)) :
    ∀ (ns : List Nat) (g g' : Graph3) (e : RErr),
      addEdgesAll env otn g ns = (g', some e) → e.isStructural = false := by
  intro ns
  induction ns with
  | nil => intro g g' e h; simp [addEdgesAll] at h
  | cons n ns ih =>
    intro g g' e h
    rw [addEdgesAll] at h
    split at h
    next g1 e1 heq =>
      rw [Prod.mk.injEq] at h
      obtain ⟨rfl, h2⟩ := h
      obtain rfl := Option.some.inj h2
      exact addInputEdges_err_not_structural env otn n _ _ _ _ heq
    next g1 heq => exact ih _ _ _ h

theorem mem_nodes_foldl_removeNode :
    ∀ (l : List Nat) (g : Graph3) (x : Nat),
      x ∈ (l.foldl Graph3.removeNode g).nodes ↔ x ∈ g.nodes ∧ ¬ x ∈ l := by
  intro l
  induction l with
  | nil => intro g x; simp
  | cons n rest ih =>
    intro g x
    rw [List.foldl_cons, ih]
    simp [Graph3.removeNode, List.mem_filter, and_assoc, and_comm, not_or]
    tauto

theorem mem_edges_foldl_removeNode :
    ∀ (l : List Nat) (g : Graph3) (p : Nat × Nat),
      p ∈ (l.foldl Graph3.removeNode g).edges ↔
        p ∈ g.edges ∧ ¬ p.1 ∈ l ∧ ¬ p.2 ∈ l := by
  intro l
  induction l with
  | nil => intro g p; simp
  | cons n rest ih =>
    intro g p
    rw [List.foldl_cons, ih]
    simp [Graph3.removeNode, List.mem_filter, not_or]
    tauto

theorem results_foldl_removeNode :
    ∀ (l : List Nat) (g : Graph3),
      (l.foldl Graph3.removeNode g).results = g.results := by
  intro l
  induction l with
  | nil => intro g; rfl
  | cons n rest ih => intro g; rw [List.foldl_cons, ih]; rfl

/-- C2 (amended): with no replacement graph the call performs pure deletion
of the nodes and their incident edges and adds nothing, but `graph.results`
is never updated (the early return on line 208-209 precedes the results
assignment on line 219), so deleted members stay in `graph.results`. -/
theorem c2_pure_deletion_no_results_update (env : Env) (g : Graph3)
    (ntr nr rtr : List Nat) :
    (replaceSubgraph env g none ntr nr rtr).1.results = g.results ∧
      ((replaceSubgraph env g none ntr nr rtr).2 = none →
        (∀ x, x ∈ (replaceSubgraph env g none ntr nr rtr).1.nodes ↔
          x ∈ g.nodes ∧ ¬ x ∈ ntr) ∧
        (∀ p : Nat × Nat,
          p ∈ (replaceSubgraph env g none ntr nr rtr).1.edges ↔
            p ∈ g.edges ∧ ¬ p.1 ∈ ntr ∧ ¬ p.2 ∈ ntr)) := by
  simp only [replaceSubgraph, Option.getD_none, List.find?_nil]
  rcases h2 : nr.find?
      (fun r => (lookupKV (mergedIndex env g [] ntr) (env.keyOf r)).isNone)
    with _ | r
  · rcases h3 : (affectedSuccessors g ntr).find?
        (fun s2 => (env.inputsOf s2).any
          (fun i => (lookupKV (mergedIndex env g [] ntr) (env.keyOf i)).isNone))
      with _ | s2
    · simp only [h2, h3]
      exact ⟨results_foldl_removeNode ntr g,
        fun _ => ⟨mem_nodes_foldl_removeNode ntr g,
          mem_edges_foldl_removeNode ntr g⟩⟩
    · simp only [h2, h3]
      exact ⟨trivial, fun hc => absurd hc (by simp)⟩
  · simp only [h2]
    exact ⟨trivial, fun hc => absurd hc (by simp)⟩

theorem c2_pure_deletion_witness :
    (replaceSubgraph envA ⟨[0], [], [0]⟩ none [0] [] [0]).1.results = [0] ∧
      ¬ 0 ∈ (replaceSubgraph envA ⟨[0], [], [0]⟩ none [0] [] [0]).1.nodes := by
  have h := c2_pure_deletion_no_results_update envA ⟨[0], [], [0]⟩ [0] [] [0]
  refine ⟨h.1, fun hc => ?_⟩
  exact (((h.2 rfl).1 0).mp hc).2 (by decide)

/-- C2 counterexample: deleting result node 0 with
`results_to_remove = [0]` succeeds, removes the node, but leaves 0 in
`graph.results` — the claim that "graph.results loses every deleted
member" fails on the pure-deletion path. -/
theorem c2_results_kept_counterexample :
    (replaceSubgraph envA ⟨[0], [], [0]⟩ none [0] [] [0]).2 = none ∧
      0 ∈ (replaceSubgraph envA ⟨[0], [], [0]⟩ none [0] [] [0]).1.results ∧
      ¬ 0 ∈ (replaceSubgraph envA ⟨[0], [], [0]⟩ none [0] [] [0]).1.nodes := by
  decide

/-- C1 (amended): a call that raises one of the three validation errors
(the StructuralViolations) leaves the graph unmodified — those checks all
run before any mutation.  (The reconnection `KeyError` is excluded: it can
fire after mutation has begun, see the counterexample.) -/
theorem c1_validation_failure_leaves_graph_unmodified (env : Env)
    (g : Graph3) (sg : Option (List Nat)) (ntr nr rtr : List Nat) (e : RErr)
    (h : (replaceSubgraph env g sg ntr nr rtr).2 = some e)
    (hs : e.isStructural = true) :
    (replaceSubgraph env g sg ntr nr rtr).1 = g := by
  cases sg with
  | none =>
    simp only [replaceSubgraph, Option.getD_none, List.find?_nil] at h ⊢
    split at h
    next r heq2 => simp only [heq2]
    next heq2 =>
      split at h
      next s2 heq3 => simp only [heq2, heq3]
      next heq3 => cases (show (none : Option RErr) = some e from h)
  | some ns =>
    simp only [replaceSubgraph, Option.getD_some] at h ⊢
    split at h
    next n heq => simp only [heq]
    next heq =>
      split at h
      next r heq2 => simp only [heq, heq2]
      next heq2 =>
        split at h
        next s2 heq3 => simp only [heq, heq2, heq3]
        next heq3 =>
          split at h
          next g3 e1 heq5 =>
            obtain rfl := Option.some.inj (show some e1 = some e from h)
            exact absurd hs (by
              rw [addEdgesAll_err_not_structural _ _ _ _ _ _ heq5]
              decide)
          next g3 heq5 => cases (show (none : Option RErr) = some e from h)

theorem c1_validation_failure_witness :
    (replaceSubgraph envA ⟨[], [], []⟩ (some [1]) [1] [] []).1 =
      (⟨[], [], []⟩ : Graph3) :=
  c1_validation_failure_leaves_graph_unmodified envA ⟨[], [], []⟩ (some [1])
    [1] [] [] (.nodeInRemoved 1) rfl rfl

/-- C1 counterexample: a replacement-graph node (1) whose input key (0) is
produced only by a removed node is never validated; the call removes node 0,
adds node 1, then raises `KeyError` during reconnection — an error-raising
call that leaves the graph modified. -/
theorem c1_error_after_mutation_counterexample :
    ((replaceSubgraph envA ⟨[0], [], []⟩ (some [1]) [0] [] []).2).isSome =
        true ∧
      (replaceSubgraph envA ⟨[0], [], []⟩ (some [1]) [0] [] []).1 ≠
        (⟨[0], [], []⟩ : Graph3) := by
  decide

/-- C5: `_replace_subgraph` raises one of the three StructuralViolations
exactly when a precondition fails: a replacement-graph node in
`nodes_to_remove`, a `new_results` member without a producer in the merged
index, or an affected successor with an input unresolvable in the merged
index.  The error is returned to the caller, never swallowed. -/
theorem c5_structural_violation_iff (env : Env) (g : Graph3)
    (sg : Option (List Nat)) (ntr nr rtr : List Nat) :
    (∃ e, (replaceSubgraph env g sg ntr nr rtr).2 = some e ∧
        e.isStructural = true) ↔
      ((∃ n ∈ sg.getD [], n ∈ ntr) ∨
        (∃ r ∈ nr,
          lookupKV (mergedIndex env g (sg.getD []) ntr) (env.keyOf r) =
            none) ∨
        (∃ s2 ∈ affectedSuccessors g ntr, ∃ i ∈ env.inputsOf s2,
          lookupKV (mergedIndex env g (sg.getD []) ntr) (env.keyOf i) =
            none)) := by
  cases sg with
  | none =>
    simp only [replaceSubgraph, Option.getD_none, List.find?_nil]
    rcases h2 : nr.find?
        (fun r => (lookupKV (mergedIndex env g [] ntr) (env.keyOf r)).isNone)
      with _ | r
    · rcases h3 : (affectedSuccessors g ntr).find?
          (fun s2 => (env.inputsOf s2).any
            (fun i =>
              (lookupKV (mergedIndex env g [] ntr) (env.keyOf i)).isNone))
        with _ | s2
      · simp only [h2, h3]
        apply iff_of_false
        · rintro ⟨e, he, -⟩
          cases (show (none : Option RErr) = some e from he)
        · rintro (⟨n, hn, -⟩ | ⟨r, hr, hre⟩ | ⟨s2, hs2, i, hi, hie⟩)
          · exact absurd hn (List.not_mem_nil n)
          · exact (List.find?_eq_none.mp h2 r hr) (by rw [hre]; rfl)
          · exact (List.find?_eq_none.mp h3 s2 hs2)
              (List.any_eq_true.mpr ⟨i, hi, by rw [hie]; rfl⟩)
      · simp only [h2, h3]
        apply iff_of_true
        · exact ⟨.missingInput s2, rfl, rfl⟩
        · refine Or.inr (Or.inr ⟨s2, List.mem_of_find?_eq_some h3, ?_⟩)
          have hp3 := List.find?_some h3
          simp only [List.any_eq_true, Option.isNone_iff_eq_none] at hp3
          exact hp3
    · simp only [h2]
      apply iff_of_true
      · exact ⟨.unknownResult r, rfl, rfl⟩
      · have hp2 := List.find?_some h2
        simp only [Option.isNone_iff_eq_none] at hp2
        exact Or.inr (Or.inl ⟨r, List.mem_of_find?_eq_some h2, hp2⟩)
  | some ns =>
    simp only [replaceSubgraph, Option.getD_some]
    rcases h1 : ns.find? (fun n => decide (n ∈ ntr)) with _ | n
    · rcases h2 : nr.find?
          (fun r =>
            (lookupKV (mergedIndex env g ns ntr) (env.keyOf r)).isNone)
        with _ | r
      · rcases h3 : (affectedSuccessors g ntr).find?
            (fun s2 => (env.inputsOf s2).any
              (fun i =>
                (lookupKV (mergedIndex env g ns ntr) (env.keyOf i)).isNone))
          with _ | s2
        · have hRfalse : ¬ ((∃ n ∈ ns, n ∈ ntr) ∨
              (∃ r ∈ nr,
                lookupKV (mergedIndex env g ns ntr) (env.keyOf r) = none) ∨
              (∃ s2 ∈ affectedSuccessors g ntr, ∃ i ∈ env.inputsOf s2,
                lookupKV (mergedIndex env g ns ntr) (env.keyOf i) =
                  none)) := by
            rintro (⟨n, hn, hnin⟩ | ⟨r, hr, hre⟩ | ⟨s2, hs2, i, hi, hie⟩)
            · have hc := List.find?_eq_none.mp h1 n hn
              simp at hc
              exact hc hnin
            · exact (List.find?_eq_none.mp h2 r hr) (by rw [hre]; rfl)
            · exact (List.find?_eq_none.mp h3 s2 hs2)
                (List.any_eq_true.mpr ⟨i, hi, by rw [hie]; rfl⟩)
          rcases h5 : addEdgesAll env (mergedIndex env g ns ntr)
              (List.foldl Graph3.addNode (List.foldl Graph3.removeNode g ntr)
                ns)
              (ns ++ affectedSuccessors g ntr) with ⟨g3, oe⟩
          cases oe with
          | some e1 =>
            simp only [h1, h2, h3, h5]
            apply iff_of_false
            · rintro ⟨e, he, hse⟩
              obtain rfl := Option.some.inj (show some e1 = some e from he)
              rw [addEdgesAll_err_not_structural _ _ _ _ _ _ h5] at hse
              cases hse
            · exact hRfalse
          | none =>
            simp only [h1, h2, h3, h5]
            apply iff_of_false
            · rintro ⟨e, he, -⟩
              cases (show (none : Option RErr) = some e from he)
            · exact hRfalse
        · simp only [h1, h2, h3]
          apply iff_of_true
          · exact ⟨.missingInput s2, rfl, rfl⟩
          · refine Or.inr (Or.inr ⟨s2, List.mem_of_find?_eq_some h3, ?_⟩)
            have hp3 := List.find?_some h3
            simp only [List.any_eq_true, Option.isNone_iff_eq_none] at hp3
            exact hp3
      · simp only [h1, h2]
        apply iff_of_true
        · exact ⟨.unknownResult r, rfl, rfl⟩
        · have hp2 := List.find?_some h2
          simp only [Option.isNone_iff_eq_none] at hp2
          exact Or.inr (Or.inl ⟨r, List.mem_of_find?_eq_some h2, hp2⟩)
    · simp only [h1]
      apply iff_of_true
      · exact ⟨.nodeInRemoved n, rfl, rfl⟩
      · exact Or.inl ⟨n, List.mem_of_find?_eq_some h1,
          by simpa using List.find?_some h1⟩

theorem c5_structural_violation_witness :
    ∃ e, (replaceSubgraph envA ⟨[], [], []⟩ (some [1]) [1] [] []).2 =
        some e ∧ e.isStructural = true :=
  (c5_structural_violation_iff envA ⟨[], [], []⟩ (some [1]) [1] [] []).mpr
    (Or.inl ⟨1, by decide, by decide⟩)

/-- Every pair collected by the loop of `_remove_collapsable_predecessors`
passed the `continue` guard, so its `pred_opt` is not a current result. -/
theorem collectPreds_not_result (s : OptimizationRecords) (fuel : Nat)
    (ptr : List (Option Nat × List Nat)) (g : Graph3) :
    ∀ (preds : List Nat) (collected : List (Option Nat × Option Nat)),
      collectPreds s fuel ptr g preds = some collected →
      ∀ pr ∈ collected, optMemB pr.2 g.results = false := by
  intro preds
  induction preds with
  | nil =>
    intro collected h pr hpr
    obtain rfl := Option.some.inj (show some [] = some collected from h)
    cases hpr
  | cons pred rest ih =>
    intro collected h pr hpr
    rw [collectPreds] at h
    rcases ho : getOriginalEntity s fuel pred (some pred) with _ | predOriginal
    · rw [ho] at h; simp only [] at h; cases h
    · rw [ho] at h
      simp only [] at h
      rcases hopt : getOptimizationResult s fuel pred (some pred)
        with _ | predOpt
      · rw [hopt] at h; simp only [] at h; cases h
      · rw [hopt] at h
        simp only [] at h
        rcases hguard : optMemB predOpt g.results ||
            optMemB predOriginal g.results with _ | _
        · rw [hguard] at h
          simp only [Bool.false_eq_true, if_false] at h
          rcases hmm : ((lookupKV ptr predOriginal).getD []).mapM
              (fun a => getOptimizationResult s fuel a (some a))
            with _ | affectSuccOpt
          · rw [hmm] at h; simp only [] at h; cases h
          · rw [hmm] at h
            simp only [] at h
            rcases hall : (g.successors pred).all
                (fun s2 => decide (some s2 ∈ affectSuccOpt)) with _ | _
            · rw [hall] at h
              simp only [Bool.false_eq_true, if_false] at h
              exact ih _ h pr hpr
            · rw [hall] at h
              simp only [if_true] at h
              rcases hrest : collectPreds s fuel ptr g rest with _ | l
              · rw [hrest] at h; simp only [] at h; cases h
              · rw [hrest] at h
                simp only [] at h
                obtain rfl := Option.some.inj h
                rcases List.mem_cons.mp hpr with rfl | hpr2
                · exact (Bool.or_eq_false_iff.mp hguard).1
                · exact ih _ hrest pr hpr2
        · rw [hguard] at h
          simp only [if_true] at h
          exact ih _ h pr hpr

/-- The removal loop never removes a node of the results list `rs` when
every collected pair's `pred_opt` avoids `rs`. -/
theorem foldlM_removeCollectedStep_preserves (rs : List Nat) :
    ∀ (collected : List (Option Nat × Option Nat))
      (st res : Graph3 × OptimizationRecords),
      (∀ pr ∈ collected, optMemB pr.2 rs = false) →
      collected.foldlM removeCollectedStep st = some res →
      ∀ n ∈ rs, n ∈ st.1.nodes → n ∈ res.1.nodes := by
  intro collected
  induction collected with
  | nil =>
    intro st res hg h n hn hmem
    obtain rfl := Option.some.inj (show some st = some res from h)
    exact hmem
  | cons pr rest ih =>
    intro st res hg h n hn hmem
    rw [List.foldlM_cons] at h
    rcases hp : pr.2 with _ | p
    · rw [show removeCollectedStep st pr = none by
          rw [removeCollectedStep, hp]] at h
      cases h
    · rw [show removeCollectedStep st pr =
          some (st.1.removeNode p, appendRecord st.2 ⟨pr.1, none, .delete⟩) by
          rw [removeCollectedStep, hp]] at h
      have h' : rest.foldlM removeCollectedStep
          (st.1.removeNode p, appendRecord st.2 ⟨pr.1, none, .delete⟩) =
          some res := h
      have hpn : ¬ p ∈ rs := by
        have hb := hg pr (List.mem_cons_self pr rest)
        rw [hp] at hb
        simpa [optMemB] using hb
      refine ih _ res (fun q hq => hg q (List.mem_cons_of_mem pr hq)) h' n hn ?_
      simp only [Graph3.removeNode, List.mem_filter]
      refine ⟨hmem, ?_⟩
      simp only [decide_eq_true_eq]
      exact fun hc : n = p => hpn (hc ▸ hn)

/-- C7: `_remove_collapsable_predecessors` never removes a node that is
currently in `graph.results`: the collection guard skips any predecessor
whose resolved or original form is a result, and removal only touches
collected predecessors. -/
theorem c7_prune_never_removes_result (s : OptimizationRecords) (fuel : Nat)
    (ptr : List (Option Nat × List Nat)) (g : Graph3) (node : Nat)
    (g' : Graph3) (s' : OptimizationRecords)
    (h : removeCollapsablePredecessors s fuel ptr g node = some (g', s')) :
    ∀ n, n ∈ g.results → n ∈ g.nodes → n ∈ g'.nodes := by
  intro n hn hmem
  rw [removeCollapsablePredecessors] at h
  rcases h1 : getOptimizationResult s fuel node none with _ | nodeRes
  · rw [h1] at h; simp only [] at h; cases h
  · rw [h1] at h
    simp only [] at h
    rcases h2 : collectPreds s fuel ptr g (g.predecessors (nodeRes.getD node))
      with _ | collected
    · rw [h2] at h; simp only [] at h; cases h
    · rw [h2] at h
      simp only [] at h
      exact foldlM_removeCollectedStep_preserves g.results collected (g, s)
        (g', s') (collectPreds_not_result s fuel ptr g _ _ h2) h n hn hmem

theorem c7_prune_never_removes_result_witness :
    removeCollapsablePredecessors emptyRecords 2 [(some 1, [2])] g7fix 2 =
        some (⟨[2, 3], [], [3]⟩, rec7fix) ∧
      3 ∈ (⟨[2, 3], [], [3]⟩ : Graph3).nodes :=
  ⟨rfl, c7_prune_never_removes_result emptyRecords 2 [(some 1, [2])] g7fix 2
      ⟨[2, 3], [], [3]⟩ rec7fix rfl 3 (by decide) (by decide)⟩

/-- With total resolution, one input-rewrite step returns exactly the
resolved-or-self value. -/
theorem resolveInputStep_eq_some (s : OptimizationRecords) (fuel : Nat)
    (h1 : ResolveTotal s fuel) (x : Nat) :
    resolveInputStep s fuel x = some (resolveOrSelf s fuel x) := by
  rcases hx : resolveInputStep s fuel x with _ | e
  · exact absurd (hx ▸ h1 x) (by simp)
  · rw [resolveOrSelf, hx]; rfl

theorem resolveOrSelf_idem (s : OptimizationRecords) (fuel : Nat)
    (h1 : ResolveTotal s fuel) (h2 : ResolveStable s fuel) (x : Nat) :
    resolveOrSelf s fuel (resolveOrSelf s fuel x) = resolveOrSelf s fuel x := by
  have hs := h2 x (resolveOrSelf s fuel x) (resolveInputStep_eq_some s fuel h1 x)
  show (resolveInputStep s fuel (resolveOrSelf s fuel x)).getD
      (resolveOrSelf s fuel x) = resolveOrSelf s fuel x
  rw [hs]; rfl

theorem mapM_option_eq_map {α β : Type} (f : α → Option β) (gg : α → β) :
    ∀ (l : List α), (∀ x ∈ l, f x = some (gg x)) →
      l.mapM f = some (l.map gg) := by
  intro l
  induction l with
  | nil => intro _; rfl
  | cons x xs ih =>
    intro h
    rw [List.mapM_cons, h x (List.mem_cons_self x xs),
      ih (fun y hy => h y (List.mem_cons_of_mem x hy))]
    rfl

theorem foldlM_append_option {γ δ : Type} (step : γ → δ → Option γ) :
    ∀ (l1 l2 : List δ) (c : γ),
      (l1 ++ l2).foldlM step c =
        (l1.foldlM step c).bind (fun c2 => l2.foldlM step c2) := by
  intro l1
  induction l1 with
  | nil => intro l2 c; rfl
  | cons a l1 ih =>
    intro l2 c
    rw [List.cons_append, List.foldlM_cons, List.foldlM_cons]
    rcases h : step c a with _ | c2
    · rfl
    · exact ih l2 c2

theorem foldlM_nested_flatMap {γ : Type} (step : γ → Nat → Option γ)
    (f : Nat → List Nat) :
    ∀ (l : List Nat) (c : γ),
      l.foldlM (fun c a => (f a).foldlM step c) c =
        (l.flatMap f).foldlM step c := by
  intro l
  induction l with
  | nil => intro c; rfl
  | cons a l ih =>
    intro c
    rw [List.foldlM_cons, List.flatMap_cons, foldlM_append_option]
    rcases h : (f a).foldlM step c with _ | c2
    · rfl
    · exact ih c2

/-- With total resolution, `get_optimization_result` returns for every
default. -/
theorem getOpt_ne_none (s : OptimizationRecords) (fuel : Nat)
    (h1 : ResolveTotal s fuel) (r : Nat) (d : Option Nat) :
    ¬ getOptimizationResult s fuel r d = none := by
  intro hg
  have hr := h1 r
  rw [resolveInputStep] at hr
  rcases hn : getOptimizationResult s fuel r none with _ | v
  · rw [hn] at hr; simp at hr
  · rw [getOptimizationResult] at hn hg
    rcases hl : (lookupKV s.originalEntityToRecords (some r)).isSome with _ | _
    · rw [hl] at hg; simp at hg
    · rw [hl] at hg hn
      simp only [if_true] at hg hn
      rw [hg] at hn
      cases hn

/-- The input-rewrite fold of `_replace_inputs`: it always returns, every
visited successor ends with its inputs mapped through resolve-or-self, and
unvisited entities are untouched. -/
theorem foldlM_rewriteSucc_characterize (s : OptimizationRecords)
    (fuel : Nat) (h1 : ResolveTotal s fuel) (h2 : ResolveStable s fuel) :
    ∀ (L : List Nat) (env : Env),
      ∃ env2, L.foldlM (rewriteSucc s fuel) env = some env2 ∧
        (∀ t, t ∈ L →
          env2.inputsOf t = (env.inputsOf t).map (resolveOrSelf s fuel)) ∧
        (∀ t, ¬ t ∈ L → env2.inputsOf t = env.inputsOf t) := by
  intro L
  induction L with
  | nil =>
    intro env
    exact ⟨env, rfl, fun t ht => absurd ht (List.not_mem_nil t), fun t _ => rfl⟩
  | cons a L ih =>
    intro env
    have hms : (env.inputsOf a).mapM (resolveInputStep s fuel) =
        some ((env.inputsOf a).map (resolveOrSelf s fuel)) :=
      mapM_option_eq_map _ _ _ (fun x _ => resolveInputStep_eq_some s fuel h1 x)
    have hrw : rewriteSucc s fuel env a =
        some (env.setInputs a
          ((env.inputsOf a).map (resolveOrSelf s fuel))) := by
      rw [rewriteSucc, hms]
    obtain ⟨env2, hfold, hin, hout⟩ :=
      ih (env.setInputs a ((env.inputsOf a).map (resolveOrSelf s fuel)))
    refine ⟨env2, ?_, ?_, ?_⟩
    · rw [List.foldlM_cons, hrw]
      exact hfold
    · intro t ht
      by_cases htL : t ∈ L
      · rw [hin t htL]
        by_cases hta : t = a
        · subst hta
          rw [show (env.setInputs t
                ((env.inputsOf t).map (resolveOrSelf s fuel))).inputsOf t =
              (env.inputsOf t).map (resolveOrSelf s fuel) from by
            simp [Env.setInputs]]
          rw [List.map_map]
          exact List.map_congr_left
            (fun x _ => resolveOrSelf_idem s fuel h1 h2 x)
        · rw [show (env.setInputs a
                ((env.inputsOf a).map (resolveOrSelf s fuel))).inputsOf t =
              env.inputsOf t from by simp [Env.setInputs, hta]]
      · have hta : t = a := by
          rcases List.mem_cons.mp ht with h | h
          · exact h
          · exact absurd h htL
        subst hta
        rw [hout t htL]
        simp [Env.setInputs]
    · intro t ht
      have hta : ¬ t = a := fun hc => ht (hc ▸ List.mem_cons_self a L)
      have htL : ¬ t ∈ L := fun hc => ht (List.mem_cons_of_mem a hc)
      rw [hout t htL]
      simp [Env.setInputs, hta]

/-- C3 (amended): after a rule reports a change, `_replace_inputs` rewrites
every successor's inputs to their resolve-forward result but raises no
error: an input whose resolution yields `None` (no record — or deleted!) is
silently kept as the original reference; `graph.results` is then recomputed
by resolving each result with itself as fallback.  (The claim's "fatal
error" on a deleted input does not exist in the code.) -/
theorem c3_replace_inputs_silent_fallback (s : OptimizationRecords)
    (fuel : Nat) (g : Graph3) (env : Env) (h1 : ResolveTotal s fuel)
    (h2 : ResolveStable s fuel) :
    ∃ env2, replaceInputs s fuel g env = some env2 ∧
      (∀ t, (∃ n ∈ g.nodes, t ∈ g.successors n) →
        env2.inputsOf t = (env.inputsOf t).map (resolveOrSelf s fuel)) ∧
      (∀ t, ¬ (∃ n ∈ g.nodes, t ∈ g.successors n) →
        env2.inputsOf t = env.inputsOf t) ∧
      recomputeResults s fuel g.results =
        some (g.results.map
          (fun r => (getOptimizationResult s fuel r (some r)).getD none)) := by
  obtain ⟨env2, hf, hin, hout⟩ := foldlM_rewriteSucc_characterize s fuel h1 h2
    (g.nodes.flatMap g.successors) env
  refine ⟨env2, ?_, ?_, ?_, ?_⟩
  · rw [replaceInputs, foldlM_nested_flatMap]
    exact hf
  · intro t ht
    exact hin t (List.mem_flatMap.mpr ht)
  · intro t ht
    exact hout t (fun hc => ht (List.mem_flatMap.mp hc))
  · apply mapM_option_eq_map
    intro r _
    rcases hg : getOptimizationResult s fuel r (some r) with _ | v
    · exact absurd hg (getOpt_ne_none s fuel h1 r (some r))
    · rfl

/-- In the fixture store (entity 1 deleted) every input resolves to itself:
a missing record falls back to the input, and the deleted entity's `None`
result falls back to the input as well. -/
theorem resolveInputStep_sDel1 (inp : Nat) :
    resolveInputStep sDel1 2 inp = some inp := by
  by_cases h : inp = 1
  · subst h; rfl
  · simp [resolveInputStep, getOptimizationResult, sDel1, buildRecords,
      emptyRecords, appendRecord, insertKV, lookupKV, Ne.symm h]

theorem c3_replace_inputs_silent_fallback_witness :
    ∃ env2, replaceInputs sDel1 2 g3fix envB = some env2 ∧
      (∀ t, (∃ n ∈ g3fix.nodes, t ∈ g3fix.successors n) →
        env2.inputsOf t = (envB.inputsOf t).map (resolveOrSelf sDel1 2)) ∧
      (∀ t, ¬ (∃ n ∈ g3fix.nodes, t ∈ g3fix.successors n) →
        env2.inputsOf t = envB.inputsOf t) ∧
      recomputeResults sDel1 2 g3fix.results =
        some (g3fix.results.map
          (fun r => (getOptimizationResult sDel1 2 r (some r)).getD none)) :=
  c3_replace_inputs_silent_fallback sDel1 2 g3fix envB
    (fun inp => by rw [resolveInputStep_sDel1]; rfl)
    (fun inp e he => by
      rw [resolveInputStep_sDel1] at he
      obtain rfl := Option.some.inj he
      exact resolveInputStep_sDel1 inp)

/-- C3 counterexample: entity 1 is deleted and feeds surviving node 2, yet
`_replace_inputs` returns normally (no abort) and leaves node 2's input as
the original dangling reference 1. -/
theorem c3_no_fatal_error_counterexample :
    getOptimizationResult sDel1 2 1 none = some none ∧
      (replaceInputs sDel1 2 g3fix envB).isSome = true ∧
      (replaceInputs sDel1 2 g3fix envB).map (fun e2 => e2.inputsOf 2) =
        some [1] :=
  ⟨rfl, rfl, rfl⟩

/-- Loop invariant of `OperandBasedOptimizationRule.apply`: newly considered
operands are distinct and disjoint from the incoming `visited` set, the
return flag accumulates exactly "some operand matched", and every matched
operand was considered. -/
theorem obApplyAux_invariant {S : Type} (opOf : Nat → Nat)
    (isInst : Nat → Bool) (matchOp : S → Nat → Bool) (memB : S → Nat → Bool)
    (transform : S → Nat → S) :
    ∀ (entities visited : List Nat) (opt : Bool) (σ : S),
      (obApplyAux opOf isInst matchOp memB transform entities visited opt
        σ).consideredOps.Nodup ∧
      (∀ op ∈ (obApplyAux opOf isInst matchOp memB transform entities visited
        opt σ).consideredOps, ¬ op ∈ visited) ∧
      ((obApplyAux opOf isInst matchOp memB transform entities visited opt
        σ).optimized =
        (opt || !(obApplyAux opOf isInst matchOp memB transform entities
          visited opt σ).matchedOps.isEmpty)) ∧
      (∀ op ∈ (obApplyAux opOf isInst matchOp memB transform entities visited
        opt σ).matchedOps,
        op ∈ (obApplyAux opOf isInst matchOp memB transform entities visited
          opt σ).consideredOps) := by
  intro entities
  induction entities with
  | nil =>
    intro visited opt σ
    refine ⟨?_, ?_, ?_, ?_⟩ <;> simp [obApplyAux]
  | cons e rest ih =>
    intro visited opt σ
    by_cases hv : opOf e ∈ visited
    · simp only [obApplyAux, if_pos hv]
      exact ih visited opt σ
    · by_cases hm : memB σ e = true
      · by_cases hi : (isInst (opOf e) && matchOp σ (opOf e)) = true
        · simp only [obApplyAux, if_neg hv, if_pos hm, if_pos hi]
          obtain ⟨hnd, hnv, hopt, hsub⟩ :=
            ih (opOf e :: visited) true (transform σ (opOf e))
          refine ⟨?_, ?_, ?_, ?_⟩
          · exact List.nodup_cons.mpr
              ⟨fun hc => hnv _ hc (List.mem_cons_self _ _), hnd⟩
          · intro o ho
            rcases List.mem_cons.mp ho with rfl | ho2
            · exact hv
            · exact fun hov => hnv o ho2 (List.mem_cons_of_mem _ hov)
          · rw [hopt]
            simp
          · intro o ho
            rcases List.mem_cons.mp ho with rfl | ho2
            · exact List.mem_cons_self _ _
            · exact List.mem_cons_of_mem _ (hsub o ho2)
        · simp only [obApplyAux, if_neg hv, if_pos hm, if_neg hi]
          obtain ⟨hnd, hnv, hopt, hsub⟩ := ih (opOf e :: visited) opt σ
          refine ⟨?_, ?_, ?_, ?_⟩
          · exact List.nodup_cons.mpr
              ⟨fun hc => hnv _ hc (List.mem_cons_self _ _), hnd⟩
          · intro o ho
            rcases List.mem_cons.mp ho with rfl | ho2
            · exact hv
            · exact fun hov => hnv o ho2 (List.mem_cons_of_mem _ hov)
          · exact hopt
          · intro o ho
            exact List.mem_cons_of_mem _ (hsub o ho)
      · simp only [obApplyAux, if_neg hv, if_neg hm]
        obtain ⟨hnd, hnv, hopt, hsub⟩ := ih (opOf e :: visited) opt σ
        refine ⟨?_, ?_, ?_, ?_⟩
        · exact List.nodup_cons.mpr
            ⟨fun hc => hnv _ hc (List.mem_cons_self _ _), hnd⟩
        · intro o ho
          rcases List.mem_cons.mp ho with rfl | ho2
          · exact hv
          · exact fun hov => hnv o ho2 (List.mem_cons_of_mem _ hov)
        · exact hopt
        · intro o ho
          exact List.mem_cons_of_mem _ (hsub o ho)

/-- C10: one `apply()` call considers each distinct operand at most once
(the considered-operand trace has no duplicates, and `match_operand` /
`apply_to_operand` run only for considered operands), and the call returns
true exactly when at least one operand matched. -/
theorem c10_operand_visited_once_and_result {S : Type} (opOf : Nat → Nat)
    (isInst : Nat → Bool) (matchOp : S → Nat → Bool) (memB : S → Nat → Bool)
    (transform : S → Nat → S) (entities : List Nat) (σ : S) :
    (obApply opOf isInst matchOp memB transform entities
      σ).consideredOps.Nodup ∧
      ((obApply opOf isInst matchOp memB transform entities σ).optimized =
          true ↔
        (obApply opOf isInst matchOp memB transform entities σ).matchedOps ≠
          []) ∧
      (∀ op ∈ (obApply opOf isInst matchOp memB transform entities
        σ).matchedOps,
        op ∈ (obApply opOf isInst matchOp memB transform entities
          σ).consideredOps) := by
  obtain ⟨hnd, -, hopt, hsub⟩ :=
    obApplyAux_invariant opOf isInst matchOp memB transform entities [] false σ
  refine ⟨hnd, ?_, hsub⟩
  show (obApplyAux opOf isInst matchOp memB transform entities [] false
      σ).optimized = true ↔
    (obApplyAux opOf isInst matchOp memB transform entities [] false
      σ).matchedOps ≠ []
  rw [hopt]
  rcases hm : (obApplyAux opOf isInst matchOp memB transform entities [] false
      σ).matchedOps with _ | ⟨a, l⟩
  · simp
  · simp
